import Mathlib

/-!
Verification development for the `string_io_and_mock` crate
(`src/lib.rs`): a `TextIOHandler` trait with two implementations,
`FileTextHandler` (real file system) and `MockTextHandler` (in-memory
`HashMap`).  The crate's one non-trivial algorithm is glob-style path
resolution in `list_names`.

Modelling conventions (shallow embedding, Unix platform):

* Platform strings (`OsStr` / `OsString`) are modelled by the inductive
  `OsStr`: either a decodable text (`utf8`, a `List Char`) or an opaque
  non-decodable blob (`nonUtf8`, tagged by a `Nat`).  `to_str` is `toStr`.
* `std::io::ErrorKind` is modelled by `ErrorKind` with the one kind the code
  names (`NotFound`) distinguished and all others opaque.
* The file system behind `FileTextHandler` is the abstract Directory
  Provider `FileSystem`: oracles for `Path::is_file`, `Path::is_dir` and
  `Path::read_dir`.  A directory entry carries the outcome of the calls the
  code makes on it: `entry.file_name()`, `entry.file_type()` and
  `metadata(entry.path()).is_file()` (`metaIsFile`, `none` when `metadata`
  returned `Err`, e.g. on a dangling symlink).  Path strings handed to the
  oracles are in component-normal form (separators unified, redundant `.`
  and empty segments dropped), the form `Components::as_path` denotes.
* `Path::components` is modelled for Unix paths (`pathComponents`); on Unix
  `Component::Prefix` never occurs, so it is absent from `PathComp`.
* The `regex` crate is modelled on exactly the sublanguage of patterns the
  glob translation in `lib.rs` generates: anchored `^body$` where the body
  is built from escaped literals (`\.`), plain literal characters, `.`
  (any character except newline, the crate's default) and `.*`.
  `tokenizeBody` maps such a body to `Tok` lists and maps anything outside
  this sublanguage to an error standing for unmodelled regex features;
  `rmatch` is the match predicate of the fragment, with the regex crate's
  rule that `.` does not match a newline and `^`/`$` anchor at the ends of
  the haystack.
* `HashMap<OsString, String>` is modelled as an association list with
  first-occurrence lookup and overwrite-in-place insert; iteration order of
  `keys()` is unspecified in Rust and is the list order here.
-/

/-- Models `std::io::ErrorKind`: `NotFound` is the one kind the crate's code
constructs; every other kind is opaque. -/
inductive ErrorKind where
  | notFound
  | other (code : Nat)
deriving DecidableEq

/-- `PathError` from `lib.rs` lines 27–35. -/
inductive PathError where
  | nonexistentParent
  | nonUtf8
  | wildcardInParent
  | ioError (kind : ErrorKind)
  | regexError (msg : String)
deriving DecidableEq

instance {ε α : Type} [DecidableEq ε] [DecidableEq α] : DecidableEq (Except ε α) := fun a b =>
  match a, b with
  | .error e, .error f =>
    if h : e = f then .isTrue (by rw [h]) else .isFalse (by intro hc; cases hc; exact h rfl)
  | .error _, .ok _ => .isFalse (by intro hc; cases hc)
  | .ok _, .error _ => .isFalse (by intro hc; cases hc)
  | .ok x, .ok y =>
    if h : x = y then .isTrue (by rw [h]) else .isFalse (by intro hc; cases hc; exact h rfl)

/-- A platform string (`OsStr`/`OsString`): either valid UTF-8 text or an
opaque non-decodable blob. -/
inductive OsStr where
  | utf8 (chars : List Char)
  | nonUtf8 (tag : Nat)
deriving DecidableEq

/-- `OsStr::to_str`: decodes iff the string is valid UTF-8. -/
def toStr : OsStr → Option (List Char)
  | .utf8 s => some s
  | .nonUtf8 _ => none

/-- The wildcard test done by the regex `[?\*]` in `contains_wildcards`
(`lib.rs` line 56): the text contains `?` or `*`. -/
def hasWildcard (s : List Char) : Bool :=
  s.any fun c => c == '?' || c == '*'

/-- `contains_wildcards` (`lib.rs` lines 48–62). -/
def containsWildcards (name : OsStr) : Except PathError Bool :=
  match toStr name with
  | none => .error .nonUtf8
  | some s => .ok (hasWildcard s)

/-- Rust `str::replace` for a single-character needle: every occurrence of
`old` is replaced by `rep`. -/
def replaceChar : List Char → Char → List Char → List Char
  | [], _, _ => []
  | d :: s, old, rep => (if d = old then rep else [d]) ++ replaceChar s old rep

/-- Splits a character list on a separator; like Rust's byte-level split,
keeps empty segments (n separators yield n+1 segments). -/
def splitOn (sep : Char) : List Char → List (List Char)
  | [] => [[]]
  | c :: rest =>
    match splitOn sep rest with
    | [] => [[]]
    | seg :: segs =>
      if c = sep then [] :: seg :: segs else (c :: seg) :: segs

/-- `std::path::Component` on Unix (no `Prefix` component exists there). -/
inductive PathComp where
  | rootDir
  | curDir
  | parentDir
  | normal (seg : List Char)
deriving DecidableEq

/-- `Path::components()` for a Unix path: a leading `/` yields `RootDir`; a
leading `.` of a relative path yields `CurDir`; empty and other `.` segments
are dropped; `..` yields `ParentDir`; anything else is `Normal`. -/
def pathComponents (s : List Char) : List PathComp :=
  let segs := (splitOn '/' s).filter fun seg => seg ≠ [] ∧ seg ≠ ['.']
  let root : List PathComp := if s.head? = some '/' then [.rootDir] else []
  let cur : List PathComp :=
    if s.head? ≠ some '/' ∧ (s = ['.'] ∨ s.take 2 = ['.', '/']) then [.curDir] else []
  root ++ cur ++ segs.map fun seg => if seg = ['.', '.'] then .parentDir else .normal seg

/-- Renders one component back to text, as `Components::as_path` shows it. -/
def renderComp : PathComp → List Char
  | .rootDir => ['/']
  | .curDir => ['.']
  | .parentDir => ['.', '.']
  | .normal seg => seg

/-- Joins rendered segments with `/`. -/
def joinSegs : List (List Char) → List Char
  | [] => []
  | [seg] => seg
  | seg :: rest => seg ++ '/' :: joinSegs rest

/-- `Components::as_path` (in component-normal form): the root renders as a
leading `/` with no separator after it; the rest joins with `/`. -/
def asPath : List PathComp → List Char
  | [] => []
  | .rootDir :: rest => '/' :: joinSegs (rest.map renderComp)
  | comps => joinSegs (comps.map renderComp)

/-- `Path::join` of a parent path and an entry file name, as used by
`entry.path()`: empty parent yields the name, a bare root does not repeat
the separator. -/
def joinPath (parent : List Char) (name : List Char) : List Char :=
  if parent = [] then name
  else if parent = ['/'] then '/' :: name
  else parent ++ '/' :: name

/-- The reverse component scan of `list_names` (`lib.rs` lines 99–147):
walks the components last-to-first with an `is_last` flag, fails with
`WildcardInParent` on a wildcard in any non-last named component, and
captures the text of the last component when it is a named one. -/
def scanRev : List PathComp → Bool → List Char → Except PathError (List Char)
  | [], _, lastPart => .ok lastPart
  | c :: rest, isLast, lastPart =>
    match c with
    | .rootDir => scanRev rest false lastPart
    | .curDir => scanRev rest false lastPart
    | .parentDir => scanRev rest false lastPart
    | .normal part =>
      if !isLast && hasWildcard part then .error .wildcardInParent
      else scanRev rest false (if isLast then part else lastPart)

/-- A named component carrying a wildcard. -/
def compWildcard : PathComp → Bool
  | .normal seg => hasWildcard seg
  | _ => false

/-- Some component other than the last carries a wildcard — the condition
under which the scan fails with `WildcardInParent`. -/
def wildcardInParentPred (comps : List PathComp) : Bool :=
  comps.dropLast.any compWildcard

/-- Token of the regex sublanguage the glob translation generates:
a literal character, `.` (one character, not newline), or `.*`
(any characters, none a newline). -/
inductive Tok where
  | lit (c : Char)
  | anyOne
  | star
deriving DecidableEq

/-- Characters the regex engine treats specially.  In the generated
sublanguage they only occur as `\.`, `.` and `.*`; anywhere else they mark
the pattern as outside the modelled fragment. -/
def regexMeta (c : Char) : Bool :=
  c = '\\' || c = '.' || c = '*' || c = '?' || c = '+' || c = '(' || c = ')' ||
  c = '|' || c = '[' || c = ']' || c = '{' || c = '}' || c = '^' || c = '$'

/-- Parses the body of a generated regex into tokens.  `\m` for a
metacharacter `m` is the escaped literal `m`; `.` immediately followed by
`*` is `.*`; a lone `.` matches one non-newline character; any other
metacharacter occurrence is outside the generated sublanguage and yields an
error standing for unmodelled regex behaviour. -/
def tokenizeBody : List Char → Except String (List Tok)
  | [] => .ok []
  | c :: rest =>
    if c = '\\' then
      match rest with
      | [] => .error "dangling escape"
      | e :: rest' =>
        if regexMeta e then (tokenizeBody rest').map (Tok.lit e :: ·)
        else .error "unsupported escape"
    else if c = '.' then
      match rest with
      | [] => .ok [Tok.anyOne]
      | e :: rest' =>
        if e = '*' then (tokenizeBody rest').map (Tok.star :: ·)
        else (tokenizeBody (e :: rest')).map (Tok.anyOne :: ·)
    else if regexMeta c then .error "unsupported metacharacter"
    else (tokenizeBody rest).map (Tok.lit c :: ·)

/-- `Regex::new` on a generated `^body$` pattern: strips the anchors and
tokenizes the body. -/
def compileRegex (s : List Char) : Except String (List Tok) :=
  match s with
  | '^' :: rest =>
    if rest.getLast? = some '$' then tokenizeBody rest.dropLast
    else .error "missing end anchor"
  | _ => .error "missing start anchor"

/-- The regex body built by `FileTextHandler::list_names` (`lib.rs` line
165): `last_part.replace(".", "\\.").replace("*", ".*").replace("?", ".")`. -/
def fileBody (lastPart : List Char) : List Char :=
  replaceChar (replaceChar (replaceChar lastPart '.' ['\\', '.']) '*' ['.', '*']) '?' ['.']

/-- The regex source built by `FileTextHandler::list_names`:
`format!("^{}$", ...)` around `fileBody`. -/
def fileRgxStr (lastPart : List Char) : List Char :=
  '^' :: fileBody lastPart ++ ['$']

/-- The regex body built by `MockTextHandler::list_names` (`lib.rs` line
269): `gstr.replace("*", ".*").replace("?", ".")` — note, unlike the file
backend, no escaping of `.`. -/
def mockBody (g : List Char) : List Char :=
  replaceChar (replaceChar g '*' ['.', '*']) '?' ['.']

/-- The regex source built by `MockTextHandler::list_names`:
`format!("^{}$", ...)` around `mockBody`. -/
def mockRgxStr (g : List Char) : List Char :=
  '^' :: mockBody g ++ ['$']

/-- What one pattern character contributes to the file backend's regex body. -/
def fFileChar (d : Char) : List Char :=
  if d = '.' then ['\\', '.']
  else if d = '*' then ['.', '*']
  else if d = '?' then ['.']
  else [d]

/-- What one pattern character contributes to the mock backend's regex body. -/
def fMockChar (d : Char) : List Char :=
  if d = '*' then ['.', '*'] else if d = '?' then ['.'] else [d]

/-- The token one pattern character becomes in the file backend: `.` is
escaped there, so it stays a literal. -/
def fileTok (d : Char) : Tok :=
  if d = '.' then .lit '.' else if d = '*' then .star else if d = '?' then .anyOne else .lit d

/-- The token one pattern character becomes in the mock backend: `.` is not
escaped there, so it becomes the engine's any-character token. -/
def mockTok (d : Char) : Tok :=
  if d = '.' then .anyOne else if d = '*' then .star else if d = '?' then .anyOne else .lit d

/-- Pattern characters whose translation stays inside the modelled regex
sublanguage: the glob wildcards, `.`, and anything the engine does not treat
specially. -/
def globSafeChar (c : Char) : Bool :=
  c = '.' || c = '*' || c = '?' || !regexMeta c

/-- A pattern whose every character keeps the generated regex inside the
modelled sublanguage. -/
def safeGlob (p : List Char) : Bool :=
  p.all globSafeChar

/-- The suffixes of a string obtainable by deleting a newline-free prefix:
exactly the positions at which a regex `.*` can hand over to the rest of the
pattern, since the regex crate's `.` does not match a newline. -/
def nlFreeSuffixes : List Char → List (List Char)
  | [] => [[]]
  | d :: s => (d :: s) :: (if d = '\n' then [] else nlFreeSuffixes s)

/-- Matching of a token list against a whole candidate string: the regex
crate's anchored match on the generated fragment.  `.` (and hence the
characters consumed by `.*`) never matches a newline; `.*` succeeds iff the
rest of the pattern matches after deleting some newline-free prefix. -/
def rmatch : List Tok → List Char → Bool
  | [], s => s.isEmpty
  | .lit _ :: _, [] => false
  | .lit c :: ts, d :: s => c == d && rmatch ts s
  | .anyOne :: _, [] => false
  | .anyOne :: ts, d :: s => d != '\n' && rmatch ts s
  | .star :: ts, s => (nlFreeSuffixes s).any fun v => rmatch ts v

/-- Declarative semantics of the token fragment: `[]` forces the whole
string consumed (anchoring); a literal consumes exactly itself; `.` consumes
exactly one non-newline character; `.*` consumes any split-off prefix of
non-newline characters. -/
def TokensMatch : List Tok → List Char → Prop
  | [], s => s = []
  | .lit c :: ts, s => ∃ s', s = c :: s' ∧ TokensMatch ts s'
  | .anyOne :: ts, s => ∃ d s', s = d :: s' ∧ d ≠ '\n' ∧ TokensMatch ts s'
  | .star :: ts, s => ∃ u v, s = u ++ v ∧ (∀ c ∈ u, c ≠ '\n') ∧ TokensMatch ts v

/-- Classification returned by `DirEntry::file_type`. -/
inductive FileType where
  | file
  | dir
  | symlink
  | otherKind
deriving DecidableEq

/-- A directory entry as the code observes it: the outcomes of
`entry.file_name()`, `entry.file_type()` (`none` for `Err`), and
`metadata(entry.path()).is_file()` (`none` when `metadata` fails, e.g. a
dangling symlink). -/
structure DirEntry where
  fileName : OsStr
  fileType : Option FileType
  metaIsFile : Option Bool
deriving DecidableEq

/-- The Directory Provider: abstract oracles for `Path::is_file`,
`Path::is_dir` and `Path::read_dir`.  `readDir` yields the entry results in
enumeration order; a `none` element is an `Err` entry result. -/
structure FileSystem where
  isFile : List Char → Bool
  isDir : List Char → Bool
  readDir : List Char → Except ErrorKind (List (Option DirEntry))

/-- The per-entry filter of `FileTextHandler::list_names` (`lib.rs` lines
176–225): skip `Err` entries, skip entries with undeterminable file type,
keep plain files and symlinks whose resolved metadata is a plain file, skip
undecodable names, and keep a candidate iff the regex matches, returning
`entry.path()`. -/
def entryToName (parent : List Char) (toks : List Tok) : Option DirEntry → Option OsStr
  | none => none
  | some e =>
    match e.fileType with
    | none => none
    | some ft =>
      match
        if ft = .file then some e.fileName
        else if ft = .symlink then
          match e.metaIsFile with
          | none => none
          | some b => if b then some e.fileName else none
        else none
      with
      | none => none
      | some fname =>
        match toStr fname with
        | none => none
        | some fnm =>
          if rmatch toks fnm then some (.utf8 (joinPath parent fnm)) else none

/-- Separator normalization done first by `FileTextHandler::list_names`
(`lib.rs` line 80): every `\` becomes `/`. -/
def normalizeSeps (s : List Char) : List Char :=
  replaceChar s '\\' ['/']

/-- The components of the normalized pattern. -/
def compsOf (pstr : List Char) : List PathComp :=
  pathComponents (normalizeSeps pstr)

/-- The parent path: the pattern's components with the last one dropped
(`components.next_back(); components.as_path()`, `lib.rs` lines 152–154). -/
def parentOf (pstr : List Char) : List Char :=
  asPath (compsOf pstr).dropLast

/-- The text the scan captures as `last_part`: the last component when it is
a named one, else the initial empty string. -/
def lastNormal (comps : List PathComp) : List Char :=
  match comps.getLast? with
  | some (.normal seg) => seg
  | _ => []

/-- `FileTextHandler::list_names` (`lib.rs` lines 74–230). -/
def fileListNames (fs : FileSystem) (globalName : OsStr) : Except PathError (List OsStr) :=
  match toStr globalName with
  | none => .error .nonUtf8
  | some pstr =>
    if !hasWildcard pstr then
      if fs.isFile (normalizeSeps pstr) then .ok [globalName] else .ok []
    else
      match scanRev (compsOf pstr).reverse true [] with
      | .error e => .error e
      | .ok lastPart =>
        if !fs.isDir (parentOf pstr) then .error .nonexistentParent
        else
          match fs.readDir (parentOf pstr) with
          | .error k => .error (.ioError k)
          | .ok entries =>
            match compileRegex (fileRgxStr lastPart) with
            | .error msg => .error (.regexError msg)
            | .ok toks => .ok (entries.filterMap (entryToName (parentOf pstr) toks))

/-- The state of a `MockTextHandler`: its `HashMap<OsString, String>`,
as an association list. -/
def MockState : Type := List (OsStr × String)

/-- `HashMap::get` / `contains_key`: first-occurrence lookup. -/
def mockLookup : List (OsStr × String) → OsStr → Option String
  | [], _ => none
  | (k, v) :: rest, n => if k = n then some v else mockLookup rest n

/-- `HashMap::insert`: overwrite the existing entry for the key, else add a
new entry. -/
def insertKV : List (OsStr × String) → OsStr → String → List (OsStr × String)
  | [], n, c => [(n, c)]
  | (k, v) :: rest, n, c =>
    if k = n then (k, c) :: rest else (k, v) :: insertKV rest n c

/-- `MockTextHandler::write_text` (`lib.rs` lines 301–304): inserts and
unconditionally returns `Ok(())`. -/
def mockWriteText (st : List (OsStr × String)) (name : OsStr) (content : String) :
    List (OsStr × String) × Except ErrorKind Unit :=
  (insertKV st name content, .ok ())

/-- `MockTextHandler::read_text` (`lib.rs` lines 294–299). -/
def mockReadText (st : List (OsStr × String)) (name : OsStr) : Except ErrorKind String :=
  match mockLookup st name with
  | none => .error .notFound
  | some c => .ok c

/-- `MockTextHandler::list_names` (`lib.rs` lines 255–292): fast exact-key
path without wildcards; otherwise the whole pattern, as one unit, is turned
into a matcher and filtered over all stored keys. -/
def mockListNames (st : List (OsStr × String)) (globalName : OsStr) :
    Except PathError (List OsStr) :=
  match toStr globalName with
  | none => .error .nonUtf8
  | some gstr =>
    if !hasWildcard gstr then
      if (mockLookup st globalName).isSome then .ok [globalName] else .ok []
    else
      match compileRegex (mockRgxStr gstr) with
      | .error msg => .error (.regexError msg)
      | .ok toks =>
        .ok (st.filterMap fun kv =>
          match toStr kv.1 with
          | none => none
          | some knm => if rmatch toks knm then some kv.1 else none)

/-- The keys of a mock store, in iteration order. -/
def mockKeys (st : List (OsStr × String)) : List OsStr :=
  st.map (·.1)

/-- How many entries a store holds for a name. -/
def countKey (st : List (OsStr × String)) (n : OsStr) : Nat :=
  (mockKeys st).count n

/-- With the `is_last` flag already cleared, the reverse scan fails exactly
when some remaining named component carries a wildcard, and otherwise keeps
its accumulator. -/
theorem scanRev_false (rs : List PathComp) (lp : List Char) :
    scanRev rs false lp =
      if rs.any compWildcard then .error .wildcardInParent else .ok lp := by
  induction rs with
  | nil => simp [scanRev]
  | cons c rest ih =>
    cases c with
    | rootDir => simpa [scanRev, compWildcard] using ih
    | curDir => simpa [scanRev, compWildcard] using ih
    | parentDir => simpa [scanRev, compWildcard] using ih
    | normal part =>
      by_cases h : hasWildcard part
      · simp [scanRev, compWildcard, h]
      · simp [scanRev, compWildcard, h, ih]

/-- The reverse component scan of `list_names`, run as the code runs it
(components reversed, `is_last` initially set): it fails with
`WildcardInParent` exactly when a non-last component carries a wildcard, and
otherwise captures the last named component. -/
theorem scanRev_reverse (comps : List PathComp) :
    scanRev comps.reverse true [] =
      if wildcardInParentPred comps then .error .wildcardInParent
      else .ok (lastNormal comps) := by
  rcases List.eq_nil_or_concat comps with h | ⟨L, b, h⟩
  · subst h; simp [scanRev, wildcardInParentPred, lastNormal]
  · subst h
    rw [List.concat_eq_append, List.reverse_concat]
    have hpred : wildcardInParentPred (L ++ [b]) = L.any compWildcard := by
      simp [wildcardInParentPred, List.dropLast_concat]
    have hlast : (L ++ [b]).getLast? = some b := List.getLast?_concat L
    cases b with
    | rootDir =>
      simp only [scanRev]
      rw [scanRev_false, List.any_reverse, hpred]
      simp [lastNormal, hlast]
    | curDir =>
      simp only [scanRev]
      rw [scanRev_false, List.any_reverse, hpred]
      simp [lastNormal, hlast]
    | parentDir =>
      simp only [scanRev]
      rw [scanRev_false, List.any_reverse, hpred]
      simp [lastNormal, hlast]
    | normal part =>
      simp only [scanRev, Bool.not_true, Bool.false_and, Bool.false_eq_true, if_neg,
        if_true, ite_true, ite_false, reduceIte]
      rw [scanRev_false, List.any_reverse, hpred]
      simp [lastNormal, hlast]

/-- `splitOn` always yields at least one segment. -/
theorem splitOn_ne_nil (sep : Char) (s : List Char) : splitOn sep s ≠ [] := by
  cases s with
  | nil => simp [splitOn]
  | cons c rest =>
    rcases h : splitOn sep rest with _ | ⟨s0, ss⟩
    · simp [splitOn, h]
    · simp only [splitOn, h]
      split <;> simp

/-- Every character of a segment produced by `splitOn` occurs in the split
string. -/
theorem mem_of_mem_splitOn {sep c : Char} {seg s : List Char}
    (hseg : seg ∈ splitOn sep s) (hc : c ∈ seg) : c ∈ s := by
  induction s generalizing seg with
  | nil =>
    simp [splitOn] at hseg
    subst hseg
    simp at hc
  | cons d rest ih =>
    rcases List.exists_cons_of_ne_nil (splitOn_ne_nil sep rest) with ⟨s0, ss, heq⟩
    by_cases hd : d = sep
    · rw [show splitOn sep (d :: rest) = [] :: s0 :: ss by rw [splitOn, heq]; simp [hd]] at hseg
      rcases List.mem_cons.mp hseg with h1 | h2
      · subst h1; simp at hc
      · exact List.mem_cons_of_mem d (ih (by rw [heq]; exact h2) hc)
    · rw [show splitOn sep (d :: rest) = (d :: s0) :: ss by rw [splitOn, heq]; simp [hd]] at hseg
      rcases List.mem_cons.mp hseg with h1 | h2
      · subst h1
        rcases List.mem_cons.mp hc with h3 | h4
        · subst h3; exact List.mem_cons_self c rest
        · exact List.mem_cons_of_mem d (ih (by rw [heq]; exact List.mem_cons_self s0 ss) h4)
      · exact List.mem_cons_of_mem d (ih (by rw [heq]; exact List.mem_cons_of_mem s0 h2) hc)

/-- A named component of a path is one of the `/`-separated segments of its
text. -/
theorem normal_mem_pathComponents {w s : List Char}
    (h : PathComp.normal w ∈ pathComponents s) : w ∈ splitOn '/' s := by
  simp only [pathComponents, List.mem_append, List.mem_map] at h
  rcases h with (h | h) | h
  · split at h <;> simp at h
  · split at h <;> simp at h
  · rcases h with ⟨seg, hseg, heq⟩
    split at heq
    · simp at heq
    · cases heq
      exact List.mem_of_mem_filter hseg

/-- A character of the result of a single-character replace comes from the
replacement or from the source. -/
theorem mem_of_mem_replaceChar {c old : Char} {s rep : List Char}
    (h : c ∈ replaceChar s old rep) : c ∈ rep ∨ c ∈ s := by
  induction s with
  | nil => simp [replaceChar] at h
  | cons d rest ih =>
    simp only [replaceChar, List.mem_append] at h
    rcases h with h | h
    · split at h
      · exact .inl h
      · simp at h; rw [h]; exact .inr (List.mem_cons_self d rest)
    · rcases ih h with h | h
      · exact .inl h
      · exact .inr (List.mem_cons_of_mem d h)

/-- If some component of the normalized pattern carries a wildcard, the
pattern text itself does: separator normalization and component splitting
neither create nor destroy `*`/`?`. -/
theorem hasWildcard_of_comp {pstr w : List Char}
    (hmem : PathComp.normal w ∈ compsOf pstr) (hw : hasWildcard w = true) :
    hasWildcard pstr = true := by
  rcases List.any_eq_true.mp hw with ⟨c, hc, hcw⟩
  have h1 : c ∈ normalizeSeps pstr :=
    mem_of_mem_splitOn (normal_mem_pathComponents hmem) hc
  have h2 : c ∈ pstr := by
    rcases mem_of_mem_replaceChar h1 with h | h
    · simp at h
      subst h
      simp at hcw
    · exact h
  exact List.any_eq_true.mpr ⟨c, h2, hcw⟩

/-- Looking up a key right after inserting it yields the inserted content. -/
theorem mockLookup_insert_self (st : List (OsStr × String)) (n : OsStr) (c : String) :
    mockLookup (insertKV st n c) n = some c := by
  induction st with
  | nil => simp [insertKV, mockLookup]
  | cons kv rest ih =>
    rcases kv with ⟨k, v⟩
    by_cases h : k = n
    · simp [insertKV, mockLookup, h]
    · simp [insertKV, mockLookup, h, ih]

/-- Inserting keeps the key list unchanged when the key is present and
appends it otherwise. -/
theorem mockKeys_insertKV (st : List (OsStr × String)) (n : OsStr) (c : String) :
    mockKeys (insertKV st n c) =
      if n ∈ mockKeys st then mockKeys st else mockKeys st ++ [n] := by
  induction st with
  | nil => simp [insertKV, mockKeys]
  | cons kv rest ih =>
    rcases kv with ⟨k, v⟩
    by_cases h : k = n
    · simp [insertKV, mockKeys, h]
    · by_cases h2 : n ∈ mockKeys rest
      · simp only [insertKV, if_neg h, mockKeys, List.map_cons] at *
        simp [h2, ih, Ne.symm h]
      · simp only [insertKV, if_neg h, mockKeys, List.map_cons] at *
        simp [h2, ih, Ne.symm h]

/-- An inserted key is present afterwards. -/
theorem mem_mockKeys_insertKV (st : List (OsStr × String)) (n : OsStr) (c : String) :
    n ∈ mockKeys (insertKV st n c) := by
  rw [mockKeys_insertKV]
  by_cases h : n ∈ mockKeys st <;> simp [h]

/-- Insertion preserves distinctness of the keys. -/
theorem nodup_mockKeys_insertKV {st : List (OsStr × String)} (n : OsStr) (c : String)
    (h : (mockKeys st).Nodup) : (mockKeys (insertKV st n c)).Nodup := by
  rw [mockKeys_insertKV]
  by_cases hm : n ∈ mockKeys st
  · simpa [hm] using h
  · rw [if_neg hm, List.nodup_append]
    exact ⟨h, List.nodup_singleton n, fun a ha hb => absurd ((List.mem_singleton.mp hb) ▸ ha) hm⟩

/-- Membership in `nlFreeSuffixes`: exactly the suffixes whose deleted
prefix contains no newline. -/
theorem mem_nlFreeSuffixes {s v : List Char} :
    v ∈ nlFreeSuffixes s ↔ ∃ u, s = u ++ v ∧ ∀ c ∈ u, c ≠ '\n' := by
  induction s generalizing v with
  | nil =>
    simp only [nlFreeSuffixes, List.mem_singleton]
    constructor
    · rintro rfl
      exact ⟨[], rfl, by simp⟩
    · rintro ⟨u, hu, _⟩
      rcases List.append_eq_nil.mp hu.symm with ⟨_, rfl⟩
      rfl
  | cons d s ih =>
    constructor
    · intro hv
      simp only [nlFreeSuffixes, List.mem_cons] at hv
      rcases hv with rfl | hv
      · exact ⟨[], rfl, by simp⟩
      · by_cases hd : d = '\n'
        · simp [hd] at hv
        · rw [if_neg hd] at hv
          rcases ih.mp hv with ⟨u, hu, hnl⟩
          refine ⟨d :: u, by rw [List.cons_append, hu], ?_⟩
          intro c hc
          rcases List.mem_cons.mp hc with rfl | hc
          · exact hd
          · exact hnl c hc
    · rintro ⟨u, hu, hnl⟩
      cases u with
      | nil =>
        simp only [List.nil_append] at hu
        rw [← hu]
        simp [nlFreeSuffixes]
      | cons e u =>
        have he : e = d ∧ s = u ++ v := by
          rw [List.cons_append] at hu
          exact ⟨(List.cons.injEq _ _ _ _ ▸ hu).1.symm, (List.cons.injEq _ _ _ _ ▸ hu).2.symm ▸ rfl⟩
        rcases he with ⟨rfl, hs⟩
        have hd : e ≠ '\n' := hnl e (List.mem_cons_self e u)
        simp only [nlFreeSuffixes, List.mem_cons, if_neg hd]
        exact .inr (ih.mpr ⟨u, hs, fun c hc => hnl c (List.mem_cons_of_mem e hc)⟩)

/-- The executable matcher agrees with the declarative semantics of the
token fragment: literals match themselves, `.` one non-newline character,
`.*` any run of non-newline characters, anchored over the whole string. -/
theorem rmatch_iff_tokensMatch : ∀ (ts : List Tok) (s : List Char),
    rmatch ts s = true ↔ TokensMatch ts s := by
  intro ts
  induction ts with
  | nil =>
    intro s
    simp [rmatch, TokensMatch, List.isEmpty_iff]
  | cons t ts ih =>
    cases t with
    | lit c =>
      intro s
      cases s with
      | nil => simp [rmatch, TokensMatch]
      | cons d s' =>
        simp only [rmatch, Bool.and_eq_true, beq_iff_eq, TokensMatch, ih]
        constructor
        · rintro ⟨rfl, hm⟩
          exact ⟨s', rfl, hm⟩
        · rintro ⟨s'', heq, hm⟩
          cases heq
          exact ⟨rfl, hm⟩
    | anyOne =>
      intro s
      cases s with
      | nil => simp [rmatch, TokensMatch]
      | cons d s' =>
        simp only [rmatch, Bool.and_eq_true, bne_iff_ne, TokensMatch, ih]
        constructor
        · rintro ⟨hne, hm⟩
          exact ⟨d, s', rfl, hne, hm⟩
        · rintro ⟨e, s'', heq, hne, hm⟩
          cases heq
          exact ⟨hne, hm⟩
    | star =>
      intro s
      simp only [rmatch, List.any_eq_true, TokensMatch, ih, mem_nlFreeSuffixes]
      constructor
      · rintro ⟨v, ⟨u, rfl, hnl⟩, hm⟩
        exact ⟨u, v, rfl, hnl, hm⟩
      · rintro ⟨u, v, rfl, hnl, hm⟩
        exact ⟨v, ⟨u, rfl, hnl⟩, hm⟩

/-- Single-character replacement distributes over appending. -/
theorem replaceChar_append (a b : List Char) (old : Char) (rep : List Char) :
    replaceChar (a ++ b) old rep = replaceChar a old rep ++ replaceChar b old rep := by
  induction a with
  | nil => simp [replaceChar]
  | cons d a ih => simp [replaceChar, ih]

/-- The file backend's replace chain processes the pattern character by
character. -/
theorem fileBody_cons (d : Char) (p : List Char) :
    fileBody (d :: p) = fFileChar d ++ fileBody p := by
  by_cases h1 : d = '.'
  · subst h1
    simp [fileBody, fFileChar, replaceChar, replaceChar_append]
  · by_cases h2 : d = '*'
    · subst h2
      simp [fileBody, fFileChar, replaceChar, replaceChar_append]
    · by_cases h3 : d = '?'
      · subst h3
        simp [fileBody, fFileChar, replaceChar, replaceChar_append]
      · simp [fileBody, fFileChar, replaceChar, replaceChar_append, h1, h2, h3]

/-- The mock backend's replace chain processes the pattern character by
character. -/
theorem mockBody_cons (d : Char) (p : List Char) :
    mockBody (d :: p) = fMockChar d ++ mockBody p := by
  by_cases h2 : d = '*'
  · subst h2
    simp [mockBody, fMockChar, replaceChar, replaceChar_append]
  · by_cases h3 : d = '?'
    · subst h3
      simp [mockBody, fMockChar, replaceChar, replaceChar_append]
    · simp [mockBody, fMockChar, replaceChar, replaceChar_append, h2, h3]

/-- A generated file-backend regex body never starts with `*`. -/
theorem fileBody_head_ne_star (p : List Char) : (fileBody p).head? ≠ some '*' := by
  cases p with
  | nil => simp [fileBody, replaceChar]
  | cons d p =>
    rw [fileBody_cons]
    by_cases h1 : d = '.'
    · simp [fFileChar, h1]
    · by_cases h2 : d = '*'
      · simp [fFileChar, h1, h2]
      · by_cases h3 : d = '?'
        · simp [fFileChar, h1, h2, h3]
        · simp [fFileChar, h1, h2, h3]

/-- A generated mock-backend regex body never starts with `*`. -/
theorem mockBody_head_ne_star (p : List Char) : (mockBody p).head? ≠ some '*' := by
  cases p with
  | nil => simp [mockBody, replaceChar]
  | cons d p =>
    rw [mockBody_cons]
    by_cases h2 : d = '*'
    · simp [fMockChar, h2]
    · by_cases h3 : d = '?'
      · simp [fMockChar, h2, h3]
      · simp [fMockChar, h2, h3]

/-- Tokenizing a lone `.` ahead of a body that does not start with `*`. -/
theorem tokenizeBody_dot_cons {rest : List Char} (h : rest.head? ≠ some '*') :
    tokenizeBody ('.' :: rest) = (tokenizeBody rest).map (Tok.anyOne :: ·) := by
  cases rest with
  | nil => rfl
  | cons e r =>
    have he : e ≠ '*' := by
      intro hc
      exact h (by rw [hc]; rfl)
    simp [tokenizeBody, he]

/-- Tokenizing a plain literal character ahead of any body. -/
theorem tokenizeBody_lit_cons {d : Char} {rest : List Char} (hbs : d ≠ '\\')
    (h1 : d ≠ '.') (hm : regexMeta d = false) :
    tokenizeBody (d :: rest) = (tokenizeBody rest).map (Tok.lit d :: ·) := by
  cases rest with
  | nil => simp [tokenizeBody, hbs, h1, hm]
  | cons e r => simp [tokenizeBody, hbs, h1, hm]

/-- For a pattern inside the modelled sublanguage, the file backend's
generated regex body tokenizes to the character-by-character translation:
`.` → escaped literal `.`, `*` → `.*`, `?` → `.`, all else literal. -/
theorem tokenizeBody_fileBody (p : List Char) (h : safeGlob p = true) :
    tokenizeBody (fileBody p) = .ok (p.map fileTok) := by
  induction p with
  | nil => simp [fileBody, replaceChar, tokenizeBody]
  | cons d p ih =>
    have hd : globSafeChar d = true := by
      have := List.all_eq_true.mp h d (List.mem_cons_self d p)
      exact this
    have hp : safeGlob p = true :=
      List.all_eq_true.mpr fun a ha => List.all_eq_true.mp h a (List.mem_cons_of_mem d ha)
    rw [fileBody_cons]
    by_cases h1 : d = '.'
    · subst h1
      simp [fFileChar, tokenizeBody, regexMeta, ih hp, fileTok, Except.map]
    · by_cases h2 : d = '*'
      · subst h2
        simp [fFileChar, tokenizeBody, ih hp, fileTok, h1, Except.map]
      · by_cases h3 : d = '?'
        · subst h3
          simp only [fFileChar, if_neg h1, if_neg h2, if_true, reduceIte, List.singleton_append]
          rw [tokenizeBody_dot_cons (fileBody_head_ne_star p), ih hp]
          simp [fileTok, h1, h2, Except.map]
        · have hmeta : regexMeta d = false := by
            simp [globSafeChar, h1, h2, h3] at hd
            simpa using hd
          have hbs : d ≠ '\\' := by
            intro hc
            rw [hc] at hmeta
            simp [regexMeta] at hmeta
          simp only [fFileChar, if_neg h1, if_neg h2, if_neg h3, List.singleton_append]
          rw [tokenizeBody_lit_cons hbs h1 hmeta, ih hp]
          simp [fileTok, h1, h2, h3, Except.map]

/-- For a pattern inside the modelled sublanguage, the mock backend's
generated regex body tokenizes to the character-by-character translation:
`*` → `.*`, `?` → `.`, and — `.` not being escaped there — `.` → `.`;
all else literal. -/
theorem tokenizeBody_mockBody (p : List Char) (h : safeGlob p = true) :
    tokenizeBody (mockBody p) = .ok (p.map mockTok) := by
  induction p with
  | nil => simp [mockBody, replaceChar, tokenizeBody]
  | cons d p ih =>
    have hd : globSafeChar d = true := by
      have := List.all_eq_true.mp h d (List.mem_cons_self d p)
      exact this
    have hp : safeGlob p = true :=
      List.all_eq_true.mpr fun a ha => List.all_eq_true.mp h a (List.mem_cons_of_mem d ha)
    rw [mockBody_cons]
    by_cases h2 : d = '*'
    · subst h2
      simp [fMockChar, tokenizeBody, ih hp, mockTok, Except.map]
    · by_cases h3 : d = '?'
      · subst h3
        simp only [fMockChar, if_neg h2, if_true, reduceIte, List.singleton_append]
        rw [tokenizeBody_dot_cons (mockBody_head_ne_star p), ih hp]
        simp [mockTok, Except.map]
      · by_cases h1 : d = '.'
        · subst h1
          simp only [fMockChar, if_neg h2, if_neg h3, List.singleton_append]
          rw [tokenizeBody_dot_cons (mockBody_head_ne_star p), ih hp]
          simp [mockTok, Except.map]
        · have hmeta : regexMeta d = false := by
            simp [globSafeChar, h1, h2, h3] at hd
            simpa using hd
          have hbs : d ≠ '\\' := by
            intro hc
            rw [hc] at hmeta
            simp [regexMeta] at hmeta
          simp only [fMockChar, if_neg h2, if_neg h3, List.singleton_append]
          rw [tokenizeBody_lit_cons hbs h1 hmeta, ih hp]
          simp [mockTok, h1, h2, h3, Except.map]

/-- Compiling the file backend's generated regex on a pattern inside the
modelled sublanguage yields the per-character token translation. -/
theorem compileRegex_fileRgx (p : List Char) (h : safeGlob p = true) :
    compileRegex (fileRgxStr p) = .ok (p.map fileTok) := by
  simp [compileRegex, fileRgxStr, List.getLast?_concat, List.dropLast_concat,
    tokenizeBody_fileBody p h]

/-- Compiling the mock backend's generated regex on a pattern inside the
modelled sublanguage yields the per-character token translation. -/
theorem compileRegex_mockRgx (p : List Char) (h : safeGlob p = true) :
    compileRegex (mockRgxStr p) = .ok (p.map mockTok) := by
  simp [compileRegex, mockRgxStr, List.getLast?_concat, List.dropLast_concat,
    tokenizeBody_mockBody p h]

/-- Exactly when the per-entry filter keeps an entry: the entry result was
`Ok`, its file type was determined and is a plain file or a symlink whose
resolved metadata is a plain file, its name decodes, the matcher accepts the
decoded name, and the produced path is the parent joined with the name. -/
theorem entryToName_eq_some {parent : List Char} {toks : List Tok}
    {er : Option DirEntry} {n : OsStr} :
    entryToName parent toks er = some n ↔
      ∃ de, er = some de ∧
        (de.fileType = some .file ∨
          (de.fileType = some .symlink ∧ de.metaIsFile = some true)) ∧
        ∃ fnm, toStr de.fileName = some fnm ∧ rmatch toks fnm = true ∧
          OsStr.utf8 (joinPath parent fnm) = n := by
  cases er with
  | none => simp [entryToName]
  | some e =>
    cases hft : e.fileType with
    | none => simp [entryToName, hft]
    | some ft =>
      cases ft with
      | file =>
        cases hts : toStr e.fileName with
        | none => simp [entryToName, hft, hts]
        | some fnm =>
          by_cases hr : rmatch toks fnm
          · simp [entryToName, hft, hts, hr]
          · simp [entryToName, hft, hts, hr]
      | dir => simp [entryToName, hft]
      | symlink =>
        cases hmf : e.metaIsFile with
        | none => simp [entryToName, hft, hmf]
        | some b =>
          cases b with
          | false => simp [entryToName, hft, hmf]
          | true =>
            cases hts : toStr e.fileName with
            | none => simp [entryToName, hft, hmf, hts]
            | some fnm =>
              by_cases hr : rmatch toks fnm
              · simp [entryToName, hft, hmf, hts, hr]
              · simp [entryToName, hft, hmf, hts, hr]
      | otherKind => simp [entryToName, hft]

/-- A file system on which nothing exists. -/
def fsTrivial : FileSystem where
  isFile := fun _ => false
  isDir := fun _ => false
  readDir := fun _ => .error (.other 0)

/-- A file system on which every path is an existing, empty directory. -/
def fsAllDirs : FileSystem where
  isFile := fun _ => true
  isDir := fun _ => true
  readDir := fun _ => .ok []

/-- Directory `d` containing plain files `a.txt` and `axtxt`. -/
def fsC2 : FileSystem where
  isFile := fun _ => false
  isDir := fun p => p = "d".data
  readDir := fun p =>
    if p = "d".data then
      .ok [some ⟨.utf8 "a.txt".data, some .file, none⟩,
           some ⟨.utf8 "axtxt".data, some .file, none⟩]
    else .error (.other 0)

/-- Mock store holding the keys `a.txt` and `axtxt`. -/
def stC2 : List (OsStr × String) :=
  [(.utf8 "a.txt".data, "t"), (.utf8 "axtxt".data, "t")]

/-- Directory `d` containing plain files `a`, `ab`, `abc` and `ba`. -/
def fsC3 : FileSystem where
  isFile := fun _ => false
  isDir := fun p => p = "d".data
  readDir := fun p =>
    if p = "d".data then
      .ok [some ⟨.utf8 "a".data, some .file, none⟩,
           some ⟨.utf8 "ab".data, some .file, none⟩,
           some ⟨.utf8 "abc".data, some .file, none⟩,
           some ⟨.utf8 "ba".data, some .file, none⟩]
    else .error (.other 0)

/-- Mock store holding the keys `a`, `ab`, `abc` and `ba`. -/
def stC3 : List (OsStr × String) :=
  [(.utf8 "a".data, "t"), (.utf8 "ab".data, "t"),
   (.utf8 "abc".data, "t"), (.utf8 "ba".data, "t")]

/-- The three stored keys of the crate's own mock wildcard test. -/
def burningKey : OsStr := .utf8 "The Burning of Auchindoon".data

/-- Second stored key of the crate's own mock wildcard test. -/
def blazeKey : OsStr := .utf8 "Auchindoon was in a blaze".data

/-- Third stored key of the crate's own mock wildcard test. -/
def willyKey : OsStr := .utf8 "Willy MacIntosh".data

/-- The mock store of the crate's own mock wildcard test. -/
def stC6 : List (OsStr × String) :=
  [(burningKey, "song"), (blazeKey, "song"), (willyKey, "song")]

/-- Directory `d` exercising every branch of the per-entry filter: a
matching plain file, a matching directory, a matching symlink to a plain
file, a matching dangling symlink, a matching symlink to a directory, a
matching entry with an undecodable name, a matching entry with
undeterminable file type, an `Err` entry result, and a non-matching plain
file. -/
def ersC7 : List (Option DirEntry) :=
  [some ⟨.utf8 "ab".data, some .file, none⟩,
   some ⟨.utf8 "ad".data, some .dir, none⟩,
   some ⟨.utf8 "ae".data, some .symlink, some true⟩,
   some ⟨.utf8 "af".data, some .symlink, none⟩,
   some ⟨.utf8 "ag".data, some .symlink, some false⟩,
   some ⟨.nonUtf8 7, some .file, none⟩,
   some ⟨.utf8 "ah".data, none, none⟩,
   none,
   some ⟨.utf8 "ba".data, some .file, none⟩]

/-- File system whose directory `d` lists `ersC7`. -/
def fsC7 : FileSystem where
  isFile := fun _ => false
  isDir := fun p => p = "d".data
  readDir := fun p => if p = "d".data then .ok ersC7 else .error (.other 0)

/-- C1: for every pattern in which a wildcard (`*` or `?`) occurs in any
component other than the final one, `FileTextHandler::list_names` returns
`Err(PathError::WildcardInParent)`.  The file system is universally
quantified and never consulted, so the error is returned regardless of
whether the parent path exists, and the scan never reaches the Directory
Provider. -/
theorem claim_C1 (fs : FileSystem) (pat : OsStr) (pstr : List Char)
    (hdec : toStr pat = some pstr)
    (hbad : wildcardInParentPred (compsOf pstr) = true) :
    fileListNames fs pat = .error .wildcardInParent := by
  have hw : hasWildcard pstr = true := by
    rcases List.any_eq_true.mp hbad with ⟨comp, hmem, hcw⟩
    have hmem' : comp ∈ compsOf pstr := (List.dropLast_sublist _).subset hmem
    cases comp with
    | normal w => exact hasWildcard_of_comp hmem' (by simpa [compWildcard] using hcw)
    | rootDir => simp [compWildcard] at hcw
    | curDir => simp [compWildcard] at hcw
    | parentDir => simp [compWildcard] at hcw
  simp only [fileListNames, hdec]
  rw [scanRev_reverse]
  simp [hw, hbad]

/-- Witness for C1 at pattern `a*/b`, on a file system where every parent
exists. -/
theorem claim_C1_witness :
    toStr (.utf8 "a*/b".data) = some "a*/b".data ∧
    wildcardInParentPred (compsOf "a*/b".data) = true ∧
    fileListNames fsAllDirs (.utf8 "a*/b".data) = .error .wildcardInParent :=
  ⟨rfl, by decide, claim_C1 fsAllDirs (.utf8 "a*/b".data) "a*/b".data rfl (by decide)⟩

/-- C4: for every wildcard-free pattern, `FileTextHandler::list_names`
returns `Ok` with the pattern itself as sole element when a plain file
exists at that (separator-normalized) path, and `Ok` with the empty vector
otherwise — never an error for mere non-existence. -/
theorem claim_C4 (fs : FileSystem) (pat : OsStr) (pstr : List Char)
    (hdec : toStr pat = some pstr) (hw : hasWildcard pstr = false) :
    fileListNames fs pat =
      .ok (if fs.isFile (normalizeSeps pstr) then [pat] else []) := by
  by_cases hf : fs.isFile (normalizeSeps pstr) <;> simp [fileListNames, hdec, hw, hf]

/-- Witness for C4 at pattern `a.txt` on the empty file system. -/
theorem claim_C4_witness :
    toStr (.utf8 "a.txt".data) = some "a.txt".data ∧
    hasWildcard "a.txt".data = false ∧
    fileListNames fsTrivial (.utf8 "a.txt".data) =
      .ok (if fsTrivial.isFile (normalizeSeps "a.txt".data)
        then [.utf8 "a.txt".data] else []) :=
  ⟨rfl, by decide, claim_C4 fsTrivial (.utf8 "a.txt".data) "a.txt".data rfl (by decide)⟩

/-- C5: for every pattern whose wildcards occur only in the final
component, if the parent path (the pattern's components with the final one
dropped) is not a directory, `FileTextHandler::list_names` returns
`Err(PathError::NonexistentParent)`. -/
theorem claim_C5 (fs : FileSystem) (pat : OsStr) (pstr : List Char)
    (hdec : toStr pat = some pstr)
    (hw : hasWildcard pstr = true)
    (hok : wildcardInParentPred (compsOf pstr) = false)
    (hdir : fs.isDir (parentOf pstr) = false) :
    fileListNames fs pat = .error .nonexistentParent := by
  simp only [fileListNames, hdec]
  rw [scanRev_reverse]
  simp [hw, hok, hdir]

/-- Witness for C5 at pattern `d/x*` on the empty file system. -/
theorem claim_C5_witness :
    fileListNames fsTrivial (.utf8 "d/x*".data) = .error .nonexistentParent :=
  claim_C5 fsTrivial (.utf8 "d/x*".data) "d/x*".data rfl (by decide) (by decide) (by decide)

/-- C7: in a wildcard resolution, `FileTextHandler::list_names` succeeds
with exactly the entries that are plain files — or symlinks whose resolved
metadata is a plain file — and whose decodable name the matcher accepts,
returned as the parent joined with the name; directories, dangling
symlinks, symlinks to non-files, undecodable names, undeterminable file
types and `Err` entry results are excluded without failing the call. -/
theorem claim_C7 (fs : FileSystem) (pat : OsStr) (pstr : List Char)
    (ers : List (Option DirEntry)) (toks : List Tok)
    (hdec : toStr pat = some pstr)
    (hw : hasWildcard pstr = true)
    (hok : wildcardInParentPred (compsOf pstr) = false)
    (hdir : fs.isDir (parentOf pstr) = true)
    (hrd : fs.readDir (parentOf pstr) = .ok ers)
    (hcmp : compileRegex (fileRgxStr (lastNormal (compsOf pstr))) = .ok toks) :
    fileListNames fs pat = .ok (ers.filterMap (entryToName (parentOf pstr) toks)) ∧
    ∀ n, n ∈ ers.filterMap (entryToName (parentOf pstr) toks) ↔
      ∃ de, some de ∈ ers ∧
        (de.fileType = some .file ∨
          (de.fileType = some .symlink ∧ de.metaIsFile = some true)) ∧
        ∃ fnm, toStr de.fileName = some fnm ∧ rmatch toks fnm = true ∧
          OsStr.utf8 (joinPath (parentOf pstr) fnm) = n := by
  constructor
  · simp only [fileListNames, hdec]
    rw [scanRev_reverse]
    simp [hw, hok, hdir, hrd, hcmp]
  · intro n
    rw [List.mem_filterMap]
    constructor
    · rintro ⟨er, her, hsome⟩
      rcases entryToName_eq_some.mp hsome with ⟨de, rfl, hcond, fnm, hts, hr, hn⟩
      exact ⟨de, her, hcond, fnm, hts, hr, hn⟩
    · rintro ⟨de, hmem, hcond, fnm, hts, hr, hn⟩
      exact ⟨some de, hmem, entryToName_eq_some.mpr ⟨de, rfl, hcond, fnm, hts, hr, hn⟩⟩

/-- Witness for C7: on `fsC7`, pattern `d/a*` returns exactly the plain
file `d/ab` and the file-symlink `d/ae`; the directory, dangling symlink,
directory-symlink, undecodable, typeless, `Err` and non-matching entries
are all skipped without an error. -/
theorem claim_C7_witness :
    fileListNames fsC7 (.utf8 "d/a*".data) =
      .ok [.utf8 "d/ab".data, .utf8 "d/ae".data] := by
  have h := (claim_C7 fsC7 (.utf8 "d/a*".data) "d/a*".data ersC7 [Tok.lit 'a', Tok.star]
    rfl (by decide) (by decide) (by decide) (by decide) (by decide)).1
  rw [h]
  decide

/-- C9: a pattern that cannot be decoded as UTF-8 makes `list_names` of
either backend return `Err(PathError::NonUtf8)` — it is never treated as a
wildcard-free pattern. -/
theorem claim_C9 (fs : FileSystem) (st : List (OsStr × String)) (k : Nat) :
    fileListNames fs (.nonUtf8 k) = .error .nonUtf8 ∧
    mockListNames st (.nonUtf8 k) = .error .nonUtf8 :=
  ⟨rfl, rfl⟩

/-- C8: on any mock state with distinct keys, writing `c1` then `c2` under
one name leaves exactly one entry for that name and reading yields `c2`;
a single write followed by a read yields the written content. -/
theorem claim_C8 (st : List (OsStr × String)) (n : OsStr) (c1 c2 : String)
    (hnd : (mockKeys st).Nodup) :
    mockReadText (mockWriteText (mockWriteText st n c1).1 n c2).1 n = .ok c2 ∧
    countKey (mockWriteText (mockWriteText st n c1).1 n c2).1 n = 1 ∧
    mockReadText (mockWriteText st n c1).1 n = .ok c1 := by
  refine ⟨?_, ?_, ?_⟩
  · simp [mockWriteText, mockReadText, mockLookup_insert_self]
  · have h1 : n ∈ mockKeys (insertKV st n c1) := mem_mockKeys_insertKV st n c1
    have h2 : (mockKeys (insertKV st n c1)).Nodup := nodup_mockKeys_insertKV n c1 hnd
    simp only [mockWriteText, countKey]
    rw [mockKeys_insertKV, if_pos h1]
    exact List.count_eq_one_of_mem h2 h1
  · simp [mockWriteText, mockReadText, mockLookup_insert_self]

/-- Witness for C8: two writes under `k` on the empty store, read back. -/
theorem claim_C8_witness :
    (mockKeys ([] : List (OsStr × String))).Nodup ∧
    mockReadText (mockWriteText (mockWriteText [] (.utf8 "k".data) "one").1
      (.utf8 "k".data) "two").1 (.utf8 "k".data) = .ok "two" :=
  ⟨by simp [mockKeys], (claim_C8 [] (.utf8 "k".data) "one" "two" (by simp [mockKeys])).1⟩

/-- C10: `MockTextHandler::write_text` never fails: for every state, every
name — the non-UTF-8 ones included — and every content, it returns `Ok(())`
and the store afterwards maps that exact name to that content. -/
theorem claim_C10 (st : List (OsStr × String)) (n : OsStr) (c : String) :
    (mockWriteText st n c).2 = .ok () ∧
    mockLookup (mockWriteText st n c).1 n = some c :=
  ⟨rfl, mockLookup_insert_self st n c⟩

/-- C6: the mock backend matches a wildcard pattern as one whole unit
against each stored key — it can never return `WildcardInParent` — and on
the crate's own test store, `*Auchindoon*` returns exactly the two matching
keys. -/
theorem claim_C6 :
    (∀ (st : List (OsStr × String)) (pat : OsStr),
      mockListNames st pat ≠ .error .wildcardInParent) ∧
    (∀ (st : List (OsStr × String)) (gstr : List Char) (toks : List Tok),
      hasWildcard gstr = true → compileRegex (mockRgxStr gstr) = .ok toks →
      mockListNames st (.utf8 gstr) = .ok (st.filterMap fun kv =>
        match toStr kv.1 with
        | none => none
        | some knm => if rmatch toks knm then some kv.1 else none)) ∧
    mockListNames stC6 (.utf8 "*Auchindoon*".data) = .ok [burningKey, blazeKey] := by
  refine ⟨?_, ?_, by decide⟩
  · intro st pat
    cases pat with
    | nonUtf8 k => simp [mockListNames, toStr]
    | utf8 g =>
      by_cases h : hasWildcard g
      · rcases hc : compileRegex (mockRgxStr g) with msg | toks <;>
          simp [mockListNames, toStr, h, hc]
      · simp only [mockListNames, toStr, h, Bool.not_false, if_true, reduceIte]
        split <;> simp
  · intro st gstr toks h hc
    simp [mockListNames, toStr, h, hc]

/-- Witness for C6's quantified parts at a concrete store and pattern. -/
theorem claim_C6_witness :
    hasWildcard "*A*".data = true ∧
    mockListNames [(.utf8 "cAt".data, "t")] (.utf8 "*A*".data) =
      .ok [.utf8 "cAt".data] :=
  ⟨by decide,
   (claim_C6.2.1 [(.utf8 "cAt".data, "t")] "*A*".data
      [Tok.star, Tok.lit 'A', Tok.star] (by decide) (by decide)).trans (by decide)⟩

/-- Counterexample to C2 as stated: in the mock backend the wildcard
pattern `a.tx?` — whose `.` should, per the claim, match only a literal
`.` — matches the stored key `axtxt`, because `MockTextHandler` does not
escape `.` before handing the pattern to the regex engine. -/
theorem claim_C2_counterexample :
    mockListNames [(.utf8 "axtxt".data, "t")] (.utf8 "a.tx?".data) =
      .ok [.utf8 "axtxt".data] := by decide

/-- C2 amended: only the file backend escapes `.` (there it matches only
itself: `d/a.tx?` lists `a.txt` but not `axtxt`); the mock backend leaves
`.` unescaped, where it matches any single character (`a.tx?` matches both
`a.txt` and `axtxt`); wildcard-free patterns match only the exact name in
both backends.  The compiled token lists exhibit the difference. -/
theorem claim_C2_amended :
    compileRegex (fileRgxStr "a.tx?".data) =
      .ok [.lit 'a', .lit '.', .lit 't', .lit 'x', .anyOne] ∧
    compileRegex (mockRgxStr "a.tx?".data) =
      .ok [.lit 'a', .anyOne, .lit 't', .lit 'x', .anyOne] ∧
    fileListNames fsC2 (.utf8 "d/a.tx?".data) = .ok [.utf8 "d/a.txt".data] ∧
    mockListNames stC2 (.utf8 "a.tx?".data) =
      .ok [.utf8 "a.txt".data, .utf8 "axtxt".data] ∧
    mockListNames stC2 (.utf8 "a.txt".data) = .ok [.utf8 "a.txt".data] :=
  ⟨by decide, by decide, by decide, by decide, by decide⟩

/-- Counterexample to C3 as stated: the stored key `a⏎` (letter `a`
followed by a newline) is not returned for pattern `a*`, although `*`
matching "zero or more characters" would require it — the regex engine's
`.`, to which `*` is translated as `.*`, does not match a newline. -/
theorem claim_C3_counterexample :
    mockListNames [(.utf8 ['a', '\n'], "t")] (.utf8 "a*".data) = .ok [] := by decide

/-- C3 amended: in both backends `*` matches zero or more non-newline
characters and `?` exactly one non-newline character, anchored over the
whole candidate: the matcher agrees with the declarative `TokensMatch`
semantics, both backends translate `*` to the `.*` token and `?` to the
`.` token on every pattern in the modelled sublanguage, and `a*` matches
`a`, `ab`, `abc` but not `ba` in both backends. -/
theorem claim_C3_amended :
    (∀ ts s, rmatch ts s = true ↔ TokensMatch ts s) ∧
    (∀ p, safeGlob p = true →
      compileRegex (fileRgxStr p) = .ok (p.map fileTok) ∧
      compileRegex (mockRgxStr p) = .ok (p.map mockTok)) ∧
    fileTok '*' = .star ∧ fileTok '?' = .anyOne ∧
    mockTok '*' = .star ∧ mockTok '?' = .anyOne ∧
    mockListNames stC3 (.utf8 "a*".data) =
      .ok [.utf8 "a".data, .utf8 "ab".data, .utf8 "abc".data] ∧
    fileListNames fsC3 (.utf8 "d/a*".data) =
      .ok [.utf8 "d/a".data, .utf8 "d/ab".data, .utf8 "d/abc".data] :=
  ⟨rmatch_iff_tokensMatch,
   fun p hp => ⟨compileRegex_fileRgx p hp, compileRegex_mockRgx p hp⟩,
   rfl, rfl, rfl, rfl, by decide, by decide⟩

/-- Witness for C3's pattern-level part at the concrete pattern `a*`. -/
theorem claim_C3_witness :
    safeGlob "a*".data = true ∧
    compileRegex (fileRgxStr "a*".data) = .ok [Tok.lit 'a', Tok.star] :=
  ⟨by decide, ((claim_C3_amended.2.1 "a*".data (by decide)).1).trans (by decide)⟩

